import Mathlib

/-!
Verification of the route-search engine of the `routing-intelligence`
repository against its natural-language specification.

The development shallowly embeds the Python sources:
* `src/backend/graph/city_graph.py`   (`CityGraph`, the Graph Store),
* `src/backend/graph/route_problem.py` (`RouteOptimizationProblem`),
* `src/backend/graph/route_optimizer.py` (`AlgorithmResult`, `RouteOptimizer`).

Python dictionaries become association lists with first-match lookup and
in-place replacement (mirroring dict insertion-order semantics); machine
floats become rationals; transcendental library calls (`math.sin`,
`math.cos`, `math.asin`, `math.sqrt`, `math.radians`) are threaded through
a `MathOps` record of abstract rational functions, since the claims under
verification only concern control flow and algebraic structure, never the
numerical value of a trigonometric function; code that can raise a Python
exception returns `Except`.

The course search framework (`search.py`: `Node`, `uniform_cost_search`,
`astar_search`, `greedy_best_first_graph_search`,
`depth_first_graph_search`, `InstrumentedProblem`) is imported by
`route_optimizer.py` but is not part of this repository's sources, so it
is modelled from the specification (sections 3, 4.2, 4.3 and 9), as
flagged in the doc comments of the corresponding definitions.
-/

/-- Abstract interface for the `math` library calls used by
`city_graph.py`.  The heuristics are verified for every interpretation of
these functions, so nothing about real trigonometry is assumed. -/
structure MathOps where
  sin : ℚ → ℚ
  cos : ℚ → ℚ
  asin : ℚ → ℚ
  sqrt : ℚ → ℚ
  radians : ℚ → ℚ

/-- Lookup in an association list: the model of Python `dict.get`. -/
def alistLookup {α : Type} : List (String × α) → String → Option α
  | [], _ => none
  | (k, v) :: rest, key => if k = key then some v else alistLookup rest key

/-- Key update in an association list: the model of Python
`dict[key] = value` (replaces in place, appends fresh keys at the end,
matching dict insertion-order semantics). -/
def alistInsert {α : Type} : List (String × α) → String → α → List (String × α)
  | [], key, val => [(key, val)]
  | (k, v) :: rest, key, val =>
    if k = key then (key, val) :: rest else (k, v) :: alistInsert rest key val

/-- The Graph Store state of `city_graph.py`:`CityGraph`.  `cities` maps a
city name to its `(latitude, longitude)` pair; `graph` maps a city name to
its weighted adjacency mapping.  The API client, cache file name and the
other I/O attributes play no role in the verified claims. -/
structure CityGraph where
  cities : List (String × (ℚ × ℚ))
  graph : List (String × List (String × ℚ))

/-- `CityGraph.get_neighbors`: `self.graph.get(city, {})`. -/
def CityGraph.get_neighbors (g : CityGraph) (city : String) : List (String × ℚ) :=
  (alistLookup g.graph city).getD []

/-- `CityGraph.get_distance`: `self.graph.get(city1, {}).get(city2, None)`. -/
def CityGraph.get_distance (g : CityGraph) (city1 city2 : String) : Option ℚ :=
  alistLookup ((alistLookup g.graph city1).getD []) city2

/-- `CityGraph.get_coordinates`: `self.cities.get(city)`. -/
def CityGraph.get_coordinates (g : CityGraph) (city : String) : Option (ℚ × ℚ) :=
  alistLookup g.cities city

/-- `CityGraph.get_all_cities`: `list(self.cities.keys())`. -/
def CityGraph.get_all_cities (g : CityGraph) : List String :=
  g.cities.map Prod.fst

/-- `if city1 not in self.graph: self.graph[city1] = {}` inside
`connect_cities`. -/
def ensureNode (gr : List (String × List (String × ℚ))) (c : String) :
    List (String × List (String × ℚ)) :=
  match alistLookup gr c with
  | some _ => gr
  | none => alistInsert gr c []

/-- `self.graph[a][b] = d` on the adjacency dictionary. -/
def setEdge (gr : List (String × List (String × ℚ))) (a b : String) (d : ℚ) :
    List (String × List (String × ℚ)) :=
  alistInsert gr a (alistInsert ((alistLookup gr a).getD []) b d)

/-- `CityGraph.connect_cities`.  The Distance Matrix API call is
externalized as `api_meters`: `some v` models a response with status `OK`
and distance value `v` in meters (the code then stores `v / 1609.34`
miles in both directions and returns `True`); `none` models a non-`OK`
status or a raised exception, in which case only the empty adjacency
entries for absent keys have been created and the method returns
`False`. -/
def CityGraph.connect_cities (g : CityGraph) (city1 city2 : String)
    (api_meters : Option ℚ) : Bool × CityGraph :=
  let gr0 := ensureNode (ensureNode g.graph city1) city2
  match api_meters with
  | some v =>
    let distance := v / (1609.34 : ℚ)
    let gr1 := setEdge gr0 city1 city2 distance
    let gr2 := setEdge gr1 city2 city1 distance
    (true, { g with graph := gr2 })
  | none => (false, { g with graph := gr0 })

/-- A fresh `CityGraph()` with no cache: `self.cities = {}`,
`self.graph = {}`. -/
def emptyCityGraph : CityGraph := ⟨[], []⟩

/-- A sequence of `connect_cities` calls, each with its externalized API
outcome, applied in order. -/
def applyConnects (g : CityGraph) : List (String × String × Option ℚ) → CityGraph
  | [] => g
  | (a, b, r) :: ops => applyConnects (CityGraph.connect_cities g a b r).2 ops

/-- `CityGraph.haversine_distance`.  The code returns 0 as soon as either
city has no recorded coordinates (`if not coords1 or not coords2`),
otherwise evaluates the haversine formula and scales by the Earth radius
3959. -/
def CityGraph.haversine_distance (m : MathOps) (g : CityGraph)
    (city1 city2 : String) : ℚ :=
  match g.get_coordinates city1, g.get_coordinates city2 with
  | some c1, some c2 =>
    let lat1 := m.radians c1.1
    let lon1 := m.radians c1.2
    let lat2 := m.radians c2.1
    let lon2 := m.radians c2.2
    let dlat := lat2 - lat1
    let dlon := lon2 - lon1
    let a := m.sin (dlat / 2) ^ 2 + m.cos lat1 * m.cos lat2 * m.sin (dlon / 2) ^ 2
    let c := 2 * m.asin (m.sqrt a)
    c * 3959
  | _, _ => 0

/-- `CityGraph.euclidean_distance`.  The code unpacks
`self.get_coordinates(city1)` (and then `city2`) *before* any guard, so a
missing coordinate entry raises `TypeError: cannot unpack non-iterable
NoneType object`, modelled as `Except.error "TypeError"`.  The subsequent
guard `if not (lat1 and lon2)` tests Python float truthiness, i.e.
`lat1 == 0 or lon2 == 0`. -/
def CityGraph.euclidean_distance (m : MathOps) (g : CityGraph)
    (city1 city2 : String) : Except String ℚ :=
  match g.get_coordinates city1 with
  | none => .error "TypeError"
  | some c1 =>
    match g.get_coordinates city2 with
    | none => .error "TypeError"
    | some c2 =>
      if c1.1 = 0 ∨ c2.2 = 0 then .ok 0
      else .ok (m.sqrt ((c2.1 - c1.1) ^ 2 + (c2.2 - c1.2) ^ 2) * 69)

/-- `CityGraph.manhattan_distance`: same unguarded unpacking and the same
truthiness guard as `euclidean_distance`. -/
def CityGraph.manhattan_distance (g : CityGraph)
    (city1 city2 : String) : Except String ℚ :=
  match g.get_coordinates city1 with
  | none => .error "TypeError"
  | some c1 =>
    match g.get_coordinates city2 with
    | none => .error "TypeError"
    | some c2 =>
      if c1.1 = 0 ∨ c2.2 = 0 then .ok 0
      else .ok ((|c2.1 - c1.1| + |c2.2 - c1.2|) * 69)

/-- Running minimum, the model of Python `min` over a nonempty list of
dict values. -/
def listMinQ : ℚ → List ℚ → ℚ
  | acc, [] => acc
  | acc, x :: xs => listMinQ (min acc x) xs

/-- `CityGraph.min_graph_distance`: minimum cost edge out of `city1`; 0
when `city1` has no neighbors.  `city2` is ignored by the code. -/
def CityGraph.min_graph_distance (g : CityGraph) (city1 _city2 : String) : ℚ :=
  match g.get_neighbors city1 with
  | [] => 0
  | e :: es => listMinQ e.2 (es.map Prod.snd)

/-- `CityGraph.weighted_heuristic`: `alpha * h_distance + (1 - alpha) *
h_graph` with `alpha = 0.7`. -/
def CityGraph.weighted_heuristic (m : MathOps) (g : CityGraph)
    (city1 city2 : String) : ℚ :=
  let h_distance := g.haversine_distance m city1 city2
  let h_graph := g.min_graph_distance city1 city2
  let alpha : ℚ := 0.7
  alpha * h_distance + (1 - alpha) * h_graph

/-- The list of edge weights out of a city, `neighbors.values()`. -/
def nbrWeights (g : CityGraph) (city : String) : List ℚ :=
  (g.get_neighbors city).map Prod.snd

/-- The Problem of `route_problem.py`: an immutable binding of the start
city, the goal city and the Graph Store. -/
structure RouteOptimizationProblem where
  initial : String
  goal : String
  graph : CityGraph

/-- `RouteOptimizationProblem.__init__`.  A `None` graph or an unknown
start or goal city raises `ValueError` (modelled as `Except.error`) before
any search can run; otherwise the constructed object binds the three
arguments unchanged. -/
def mkRouteProblem (initial goal : String) (graph : Option CityGraph) :
    Except String RouteOptimizationProblem :=
  match graph with
  | none => .error "CityGraph not initialized"
  | some g =>
    if initial ∈ g.get_all_cities then
      if goal ∈ g.get_all_cities then .ok ⟨initial, goal, g⟩
      else .error "Goal city not found in graph"
    else .error "Initial city not found in graph"

/-- `RouteOptimizationProblem.actions`: the neighbor city names. -/
def RouteOptimizationProblem.actions (p : RouteOptimizationProblem)
    (state : String) : List String :=
  (p.graph.get_neighbors state).map Prod.fst

/-- `RouteOptimizationProblem.goal_test`. -/
def RouteOptimizationProblem.goal_test (p : RouteOptimizationProblem)
    (state : String) : Bool :=
  state = p.goal

/-- `RouteOptimizationProblem.path_cost`: cumulative cost plus the direct
edge weight, or `float('inf')` (modelled as `⊤` in `WithTop ℚ`) when the
two cities are not directly connected. -/
def RouteOptimizationProblem.path_cost (p : RouteOptimizationProblem)
    (cost_so_far : WithTop ℚ) (current_city _action next_city : String) :
    WithTop ℚ :=
  match p.graph.get_distance current_city next_city with
  | none => ⊤
  | some d => cost_so_far + (d : WithTop ℚ)

/-- Modelled from the spec: the `SearchNode` of section 3 (the `Node`
class of the missing course `search.py`): state, optional parent
reference, the action taken, accumulated path cost `g`, and depth.  The
two constructors encode "parent = predecessor node or none". -/
inductive SNode where
  | root (state : String) (action : Option String) (path_cost : ℚ) (depth : Nat)
  | child (state : String) (parent : SNode) (action : Option String)
      (path_cost : ℚ) (depth : Nat)
deriving DecidableEq

/-- The state stored in a search node. -/
def SNode.state : SNode → String
  | .root s _ _ _ => s
  | .child s _ _ _ _ => s

/-- The accumulated path cost `g` stored in a search node. -/
def SNode.path_cost : SNode → ℚ
  | .root _ _ c _ => c
  | .child _ _ _ c _ => c

/-- The depth stored in a search node. -/
def SNode.depth : SNode → Nat
  | .root _ _ _ d => d
  | .child _ _ _ _ d => d

/-- The states collected by the `while current: path.append(current.state);
current = current.parent` loop of `RouteOptimizer._extract_path`: the
node's state followed by the states of its ancestors up to the root. -/
def SNode.lineage : SNode → List String
  | .root s _ _ _ => [s]
  | .child s p _ _ _ => s :: p.lineage

/-- The state at the root of a node's parent chain. -/
def SNode.rootState : SNode → String
  | .root s _ _ _ => s
  | .child _ p _ _ _ => p.rootState

/-- `RouteOptimizer._extract_path`: follow parent references collecting
states, then reverse; an absent node yields the empty path. -/
def RouteOptimizer.extract_path : Option SNode → List String
  | none => []
  | some n => n.lineage.reverse

/-- Modelled from the spec: the successor node generated when expanding
`n` along the edge `e = (neighbor, weight)` (section 4.2 step 5: "new
accumulated cost = g(state) + edge weight"; section 3: the action is the
edge taken, the depth grows by one). -/
def childNode (n : SNode) (e : String × ℚ) : SNode :=
  .child e.1 n (some e.1) (n.path_cost + e.2) (n.depth + 1)

/-- Modelled from the spec: the frontier discipline of section 4.3 / 9 —
the generic procedure is parameterized by either a priority frontier keyed
by an evaluation function `f` (UCS, A*, Greedy) or a LIFO stack (DFS). -/
inductive Strategy where
  | best (f : SNode → ℚ) : Strategy
  | lifo : Strategy

/-- Modelled from the spec: pop the frontier entry with minimum `f`,
FIFO among equal keys (section 4.2 step 2, section 3 `Frontier`). -/
def extractMin (f : SNode → ℚ) : List SNode → Option (SNode × List SNode)
  | [] => none
  | x :: xs =>
    match extractMin f xs with
    | none => some (x, xs)
    | some (m, rest) => if f x ≤ f m then some (x, xs) else some (m, x :: rest)

/-- Modelled from the spec: pop the most recently pushed entry (LIFO
stack discipline of DFS, section 4.3). -/
def popLast : List SNode → Option (SNode × List SNode)
  | [] => none
  | x :: xs =>
    match popLast xs with
    | none => some (x, [])
    | some (n, rest) => some (n, x :: rest)

/-- Modelled from the spec: frontier insertion for the priority
discipline — "if neighbor already in frontier with higher or no recorded
cost, insert/replace with the cheaper node; otherwise skip" (section 4.2
step 5). -/
def addChild (f : SNode → ℚ) (fr : List SNode) (c : SNode) : List SNode :=
  match fr.find? (fun x => x.state == c.state) with
  | none => fr ++ [c]
  | some m =>
    if f c < f m then fr.map (fun x => if x.state == c.state then c else x)
    else fr

/-- Pop discipline of a strategy. -/
def Strategy.pick : Strategy → List SNode → Option (SNode × List SNode)
  | .best f, l => extractMin f l
  | .lifo, l => popLast l

/-- Insertion discipline of a strategy: priority insert/replace for
best-first, plain push for the DFS stack. -/
def Strategy.place : Strategy → List SNode → SNode → List SNode
  | .best f, fr, c => addChild f fr c
  | .lifo, fr, c => fr ++ [c]

/-- Modelled from the spec: the successors generated when expanding a
node — one child per neighbor edge whose target is not yet visited
(section 4.2 step 5). -/
def expandChildren (g : CityGraph) (visited : Finset String) (n : SNode) :
    List SNode :=
  ((g.get_neighbors n.state).filter (fun e => decide (e.1 ∉ visited))).map
    (childNode n)

/-- Every city name that occurs as a neighbor target anywhere in the
adjacency structure.  All states ever generated by an expansion lie in
this set. -/
def targets (g : CityGraph) : Finset String :=
  ((g.graph.map (fun e => e.2.map Prod.fst)).flatten).toFinset

/-- The finite universe of states a search from `init` can ever touch. -/
def uSet (g : CityGraph) (init : String) : Finset String :=
  insert init (targets g)

/-- The largest adjacency-list length in the store, bounding the number
of children of any expansion. -/
def maxDeg (g : CityGraph) : Nat :=
  g.graph.foldr (fun e acc => max e.2.length acc) 0

/-- Modelled from the spec: the generic graph-search loop of section 4.2,
parameterized by the frontier discipline (section 9): pop an entry; succeed
if it is the goal; skip it if already visited; otherwise mark it visited,
increment the expansion counter, and place the unvisited neighbor children.
The `fuel` argument is a bound on the number of iterations, consumed one
per pop; `none` means the bound was exhausted — `searchFuel` below is
proved large enough that this never happens from the canonical entry
point.  Returns the result node (or `none` on frontier exhaustion), the
visited set and the expansion count. -/
def searchLoop (g : CityGraph) (goal : String) (strat : Strategy) :
    Nat → List SNode → Finset String → Nat →
    Option (Option SNode × Finset String × Nat)
  | 0, frontier, visited, count =>
    match strat.pick frontier with
    | none => some (none, visited, count)
    | some _ => none
  | fuel + 1, frontier, visited, count =>
    match strat.pick frontier with
    | none => some (none, visited, count)
    | some (n, rest) =>
      if n.state = goal then some (some n, visited, count)
      else if n.state ∈ visited then searchLoop g goal strat fuel rest visited count
      else
        let vis2 := insert n.state visited
        searchLoop g goal strat fuel
          ((expandChildren g vis2 n).foldl strat.place rest) vis2 (count + 1)

/-- An iteration budget sufficient for `searchLoop` never to run out of
fuel (each expansion pushes at most `maxDeg` entries and there are at most
`(uSet g init).card` expansions). -/
def searchFuel (g : CityGraph) (init : String) : Nat :=
  1 + (uSet g init).card * (maxDeg g + 1)

/-- Modelled from the spec: run the graph search for one strategy from
the root node (state = initial, no parent, `g = 0`), with an empty visited
set and a zero expansion counter (section 4.2 step 1). -/
def coreSearch (g : CityGraph) (init goal : String) (strat : Strategy) :
    Option (Option SNode × Finset String × Nat) :=
  searchLoop g goal strat (searchFuel g init) [SNode.root init none 0 0] ∅ 0

/-- The `AlgorithmResult` of `route_optimizer.py`: name, path, total
cost, expansion count, wall-clock duration, success flag. -/
structure AlgorithmResult where
  algorithm_name : String
  path : List String
  path_cost : ℚ
  nodes_expanded : Nat
  execution_time_ms : ℚ
  success : Bool

/-- The common runner skeleton shared by the four static methods of
`RouteOptimizer`: run the (spec-modelled) search, then on success report
the extracted path, the result node's path cost and the expansion count;
on frontier exhaustion report failure with the default empty path and
zero cost but the actual expansion count.  Wall-clock measurement is
externalized as the `elapsed_ms` argument, since the model has no clock;
the fuel-exhaustion case (proved unreachable from `coreSearch`) also maps
to a failure result. -/
def runWith (nm : String) (strat : Strategy) (p : RouteOptimizationProblem)
    (elapsed_ms : ℚ) : AlgorithmResult :=
  match coreSearch p.graph p.initial p.goal strat with
  | some (some node, _, cnt) =>
    ⟨nm, RouteOptimizer.extract_path (some node), node.path_cost, cnt, elapsed_ms, true⟩
  | some (none, _, cnt) => ⟨nm, [], 0, cnt, elapsed_ms, false⟩
  | none => ⟨nm, [], 0, 0, elapsed_ms, false⟩

/-- `RouteOptimizer.uniform_cost_search`: best-first with `f = g`. -/
def RouteOptimizer.uniform_cost_search (p : RouteOptimizationProblem)
    (elapsed_ms : ℚ) : AlgorithmResult :=
  runWith "UCS" (Strategy.best (fun n => n.path_cost)) p elapsed_ms

/-- `RouteOptimizer.astar_search`: best-first with `f = g + h`, `h` the
haversine distance to the goal (`RouteOptimizationProblem.h`). -/
def RouteOptimizer.astar_search (m : MathOps) (p : RouteOptimizationProblem)
    (elapsed_ms : ℚ) : AlgorithmResult :=
  runWith "A*"
    (Strategy.best (fun n => n.path_cost + p.graph.haversine_distance m n.state p.goal))
    p elapsed_ms

/-- `RouteOptimizer.greedy_best_first_search`: best-first with `f = h`. -/
def RouteOptimizer.greedy_best_first_search (m : MathOps)
    (p : RouteOptimizationProblem) (elapsed_ms : ℚ) : AlgorithmResult :=
  runWith "Greedy"
    (Strategy.best (fun n => p.graph.haversine_distance m n.state p.goal))
    p elapsed_ms

/-- `RouteOptimizer.depth_first_search`: the LIFO-stack discipline.  The
runner imports `depth_first_graph_search`, so the graph-search variant
(visited-set de-duplication) is modelled, as required for the
specification's "all four strategies return success=false on no-path"
contract to be satisfiable on the cyclic (symmetric) road networks this
store builds. -/
def RouteOptimizer.depth_first_search (p : RouteOptimizationProblem)
    (elapsed_ms : ℚ) : AlgorithmResult :=
  runWith "DFS" Strategy.lifo p elapsed_ms

/-- `RouteOptimizer.run_all_algorithms`: construct the problem (its
validation error propagates) and run the four strategies on it.  The four
wall-clock measurements are externalized as arguments. -/
def RouteOptimizer.run_all_algorithms (m : MathOps) (initial_city goal_city : String)
    (city_graph : CityGraph) (e1 e2 e3 e4 : ℚ) :
    Except String (AlgorithmResult × AlgorithmResult × AlgorithmResult × AlgorithmResult) :=
  match mkRouteProblem initial_city goal_city (some city_graph) with
  | .error s => .error s
  | .ok p =>
    .ok (RouteOptimizer.uniform_cost_search p e1,
         RouteOptimizer.astar_search m p e2,
         RouteOptimizer.greedy_best_first_search m p e3,
         RouteOptimizer.depth_first_search p e4)

/-- Graph reachability along stored adjacency edges: the goal states a
search from `a` can possibly reach. -/
inductive Reaches (g : CityGraph) : String → String → Prop
  | refl (a : String) : Reaches g a a
  | step {a b c : String} {w : ℚ} :
      Reaches g a b → (c, w) ∈ g.get_neighbors b → Reaches g a c

/-- Two algorithm results agree on everything the specification requires
to be reproducible: path, total cost, expansion count and success flag
(only the wall-clock duration may differ). -/
def sameStats (r1 r2 : AlgorithmResult) : Prop :=
  r1.path = r2.path ∧ r1.path_cost = r2.path_cost ∧
  r1.nodes_expanded = r2.nodes_expanded ∧ r1.success = r2.success

/-- Two outcomes of `run_all_algorithms` agree up to wall-clock
durations: both fail with the same validation error, or both succeed with
per-strategy results agreeing on path, cost, expansions and success. -/
def sameOutcome
    (r1 r2 : Except String (AlgorithmResult × AlgorithmResult × AlgorithmResult × AlgorithmResult)) :
    Prop :=
  match r1, r2 with
  | .ok (a1, b1, c1, d1), .ok (a2, b2, c2, d2) =>
    sameStats a1 a2 ∧ sameStats b1 b2 ∧ sameStats c1 c2 ∧ sameStats d1 d2
  | .error s, .error t => s = t
  | _, _ => False

/-- Raw adjacency-level distance lookup, the body of
`CityGraph.get_distance` stated over a bare adjacency structure. -/
def rawDistance (gr : List (String × List (String × ℚ))) (a b : String) : Option ℚ :=
  alistLookup ((alistLookup gr a).getD []) b

/-- A concrete interpretation of the math library (the claims hold for
every interpretation; witnesses just need one). -/
def m0 : MathOps := ⟨id, id, id, id, id⟩

/-- Concrete store where city `B` has coordinates but city `A` does not. -/
def gC1 : CityGraph := ⟨[("B", (1, 2))], []⟩

/-- Concrete connected store used by witnesses. -/
def gW : CityGraph :=
  ⟨[("A", (1, 1)), ("B", (2, 2)), ("C", (3, 3))],
   [("A", [("B", 5), ("C", 3)]), ("B", [("A", 5)]), ("C", [("A", 3)])]⟩

/-- Concrete problem over `gW`. -/
def pW : RouteOptimizationProblem := ⟨"A", "B", gW⟩

/-- Concrete store with two known cities and no edges at all, so `B` is
unreachable from `A`. -/
def gW4 : CityGraph := ⟨[("A", (0, 0)), ("B", (3, 4))], []⟩

/-- Concrete problem over `gW4` with an unreachable goal. -/
def pW4 : RouteOptimizationProblem := ⟨"A", "B", gW4⟩

/-- Concrete store with the single symmetric edge `A ↔ B` of weight 5. -/
def gW6 : CityGraph :=
  ⟨[("A", (1, 1)), ("B", (2, 2))], [("A", [("B", 5)]), ("B", [("A", 5)])]⟩

/-- Concrete problem over `gW6`. -/
def pW6 : RouteOptimizationProblem := ⟨"A", "B", gW6⟩

/-- The goal node a `gW6` search returns: state `B`, parent the root.  Its
path cost is written as the unevaluated sum the expansion builds, so that
it matches the search result up to definitional unfolding. -/
def nodeB6 : SNode :=
  SNode.child "B" (SNode.root "A" none 0 0) (some "B") ((0 : ℚ) + 5) 1

theorem alistLookup_insert {α : Type} (l : List (String × α)) (k key : String) (v : α) :
    alistLookup (alistInsert l k v) key = if k = key then some v else alistLookup l key := by
  induction l with
  | nil => simp [alistInsert, alistLookup]
  | cons hd tl ih =>
    obtain ⟨k1, v1⟩ := hd
    by_cases h1 : k1 = k
    · subst h1
      by_cases h2 : k1 = key <;> simp [alistInsert, alistLookup, h2]
    · by_cases h2 : k1 = key
      · subst h2
        have hk : ¬ k = k1 := fun h => h1 h.symm
        simp [alistInsert, alistLookup, h1, hk]
      · simp [alistInsert, alistLookup, h1, h2, ih]

theorem alistLookup_mem {α : Type} {l : List (String × α)} {k : String} {v : α}
    (h : alistLookup l k = some v) : (k, v) ∈ l := by
  induction l with
  | nil => simp [alistLookup] at h
  | cons hd tl ih =>
    obtain ⟨k1, v1⟩ := hd
    by_cases h1 : k1 = k
    · subst h1
      simp [alistLookup] at h
      simp [h]
    · simp only [alistLookup, if_neg h1] at h
      exact List.mem_cons_of_mem _ (ih h)

theorem rawDistance_ensureNode (gr : List (String × List (String × ℚ)))
    (c a b : String) : rawDistance (ensureNode gr c) a b = rawDistance gr a b := by
  unfold ensureNode
  cases h : alistLookup gr c with
  | some l => rfl
  | none =>
    unfold rawDistance
    rw [alistLookup_insert]
    by_cases hac : c = a
    · subst hac
      rw [if_pos rfl, h]
      simp [alistLookup]
    · rw [if_neg hac]

theorem rawDistance_setEdge (gr : List (String × List (String × ℚ)))
    (x y : String) (d : ℚ) (a b : String) :
    rawDistance (setEdge gr x y d) a b =
      if a = x ∧ b = y then some d else rawDistance gr a b := by
  unfold setEdge rawDistance
  rw [alistLookup_insert]
  by_cases hax : x = a
  · subst hax
    rw [if_pos rfl]
    simp only [Option.getD_some]
    rw [alistLookup_insert]
    by_cases hby : y = b
    · subst hby
      simp
    · rw [if_neg hby, if_neg (fun hc => hby hc.2.symm)]
  · rw [if_neg hax, if_neg (fun hc => hax hc.1.symm)]

theorem connect_preserves_symm (g : CityGraph) (c1 c2 : String) (r : Option ℚ)
    (hs : ∀ a b, rawDistance g.graph a b = rawDistance g.graph b a) (a b : String) :
    rawDistance (g.connect_cities c1 c2 r).2.graph a b =
      rawDistance (g.connect_cities c1 c2 r).2.graph b a := by
  cases r with
  | none =>
    simp only [CityGraph.connect_cities, rawDistance_ensureNode]
    exact hs a b
  | some v =>
    simp only [CityGraph.connect_cities, rawDistance_setEdge, rawDistance_ensureNode]
    split_ifs <;> first | rfl | exact hs a b | tauto

theorem applyConnects_symm (ops : List (String × String × Option ℚ)) :
    ∀ g : CityGraph, (∀ a b, rawDistance g.graph a b = rawDistance g.graph b a) →
      ∀ a b, rawDistance (applyConnects g ops).graph a b =
        rawDistance (applyConnects g ops).graph b a := by
  induction ops with
  | nil => intro g hs a b; exact hs a b
  | cons op rest ih =>
    intro g hs a b
    obtain ⟨x, y, r⟩ := op
    exact ih (g.connect_cities x y r).2 (connect_preserves_symm g x y r hs) a b

/-- Claim C2: after any sequence of `connect_cities` operations on a fresh
store the edge relation is symmetric (both directions present with the
same weight, or both absent), and every successful connect inserts the
converted weight in both directions, overwriting any prior weight. -/
theorem claim_C2_edge_symmetry (ops : List (String × String × Option ℚ)) (a b : String) :
    (applyConnects emptyCityGraph ops).get_distance a b =
      (applyConnects emptyCityGraph ops).get_distance b a ∧
    ∀ (g : CityGraph) (v : ℚ),
      (g.connect_cities a b (some v)).2.get_distance a b = some (v / (1609.34 : ℚ)) ∧
      (g.connect_cities a b (some v)).2.get_distance b a = some (v / (1609.34 : ℚ)) := by
  constructor
  · exact applyConnects_symm ops emptyCityGraph
      (fun x y => by simp [rawDistance, emptyCityGraph, alistLookup]) a b
  · intro g v
    show rawDistance _ a b = _ ∧ rawDistance _ b a = _
    by_cases hab : a = b <;>
      simp_all [CityGraph.connect_cities, rawDistance_setEdge]

/-- Claim C7: `get_neighbors` is a total function into neighbor→distance
mappings; a city with no adjacency entry gets the empty mapping. -/
theorem claim_C7_neighbors_total (g : CityGraph) (c : String) :
    (alistLookup g.graph c = none → g.get_neighbors c = []) ∧
    ∀ l, alistLookup g.graph c = some l → g.get_neighbors c = l := by
  constructor
  · intro h; simp [CityGraph.get_neighbors, h]
  · intro l h; simp [CityGraph.get_neighbors, h]

theorem claim_C7_neighbors_total_witness : CityGraph.get_neighbors gW "Z" = [] :=
  (claim_C7_neighbors_total gW "Z").1 (by decide)

theorem listMinQ_le (acc : ℚ) (xs : List ℚ) :
    listMinQ acc xs ≤ acc ∧ ∀ x ∈ xs, listMinQ acc xs ≤ x := by
  induction xs generalizing acc with
  | nil => simp [listMinQ]
  | cons y ys ih =>
    simp only [listMinQ]
    refine ⟨le_trans (ih (min acc y)).1 (min_le_left _ _), ?_⟩
    intro x hx
    rcases List.mem_cons.mp hx with h | h
    · subst h; exact le_trans (ih _).1 (min_le_right _ _)
    · exact (ih _).2 x h

theorem listMinQ_mem (acc : ℚ) (xs : List ℚ) :
    listMinQ acc xs = acc ∨ listMinQ acc xs ∈ xs := by
  induction xs generalizing acc with
  | nil => left; rfl
  | cons y ys ih =>
    simp only [listMinQ]
    rcases ih (min acc y) with h | h
    · rcases min_cases acc y with ⟨hm, _⟩ | ⟨hm, _⟩
      · left; rw [h, hm]
      · right; rw [h, hm]; exact List.mem_cons_self _ _
    · right; exact List.mem_cons_of_mem _ h

/-- Claim C8: the minimum-incident-edge heuristic ignores its second
argument, returns 0 when the source has no outgoing edges, and otherwise
returns the smallest outgoing edge weight. -/
theorem claim_C8_min_incident_edge (g : CityGraph) (c1 c2 c3 : String) :
    g.min_graph_distance c1 c2 = g.min_graph_distance c1 c3 ∧
    (g.get_neighbors c1 = [] → g.min_graph_distance c1 c2 = 0) ∧
    (g.get_neighbors c1 ≠ [] → g.min_graph_distance c1 c2 ∈ nbrWeights g c1) ∧
    ∀ w ∈ nbrWeights g c1, g.min_graph_distance c1 c2 ≤ w := by
  refine ⟨rfl, ?_, ?_, ?_⟩
  · intro h; simp [CityGraph.min_graph_distance, h]
  · intro h
    unfold CityGraph.min_graph_distance nbrWeights
    cases hn : g.get_neighbors c1 with
    | nil => exact absurd hn h
    | cons e es =>
      simp only [List.map_cons, List.mem_cons]
      rcases listMinQ_mem e.2 (es.map Prod.snd) with hm | hm
      · left; exact hm
      · right; exact hm
  · intro w hw
    unfold CityGraph.min_graph_distance
    unfold nbrWeights at hw
    cases hn : g.get_neighbors c1 with
    | nil => rw [hn] at hw; simp at hw
    | cons e es =>
      rw [hn] at hw
      simp only [List.map_cons, List.mem_cons] at hw
      rcases hw with hw | hw
      · subst hw; exact (listMinQ_le _ _).1
      · exact (listMinQ_le _ _).2 w hw

theorem claim_C8_min_incident_edge_witness :
    CityGraph.min_graph_distance gW "A" "B" ≤ 5 :=
  (claim_C8_min_incident_edge gW "A" "B" "C").2.2.2 5 (by decide)

/-- Claim C5: the weighted blend is `α·great_circle + (1−α)·min_incident`
with `α = 0.7` fixed, for every interpretation of the math library, every
store and every pair of cities. -/
theorem claim_C5_weighted_blend (m : MathOps) (g : CityGraph) (c1 c2 : String) :
    g.weighted_heuristic m c1 c2 =
      (0.7 : ℚ) * g.haversine_distance m c1 c2 +
        (1 - (0.7 : ℚ)) * g.min_graph_distance c1 c2 := rfl

/-- Claim C1 (code bug): with city `A` lacking coordinates, the
planar-Euclidean and taxicab heuristics raise `TypeError` (unpacking
`None`) instead of returning 0, in both argument orders; the haversine,
minimum-incident-edge and weighted-blend heuristics do return 0. -/
theorem claim_C1_missing_coords_behavior :
    CityGraph.euclidean_distance m0 gC1 "A" "B" = Except.error "TypeError" ∧
    CityGraph.manhattan_distance gC1 "A" "B" = Except.error "TypeError" ∧
    CityGraph.euclidean_distance m0 gC1 "B" "A" = Except.error "TypeError" ∧
    CityGraph.manhattan_distance gC1 "B" "A" = Except.error "TypeError" ∧
    CityGraph.haversine_distance m0 gC1 "A" "B" = 0 ∧
    CityGraph.haversine_distance m0 gC1 "B" "A" = 0 ∧
    CityGraph.min_graph_distance gC1 "A" "B" = 0 ∧
    CityGraph.weighted_heuristic m0 gC1 "A" "B" = 0 := by
  have h5 : CityGraph.haversine_distance m0 gC1 "A" "B" = 0 := by decide
  have h7 : CityGraph.min_graph_distance gC1 "A" "B" = 0 := by decide
  refine ⟨rfl, rfl, rfl, rfl, h5, by decide, h7, ?_⟩
  simp only [CityGraph.weighted_heuristic, h5, h7]
  norm_num

/-- Claim C3: problem construction fails with the appropriate not-found
validation error when the start or goal city is unknown to the store, and
otherwise succeeds binding `(initial, goal, graph)` unchanged. -/
theorem claim_C3_problem_validation (initial goal : String) (g : CityGraph) :
    (initial ∉ g.get_all_cities →
      mkRouteProblem initial goal (some g) = .error "Initial city not found in graph") ∧
    (initial ∈ g.get_all_cities → goal ∉ g.get_all_cities →
      mkRouteProblem initial goal (some g) = .error "Goal city not found in graph") ∧
    (initial ∈ g.get_all_cities → goal ∈ g.get_all_cities →
      mkRouteProblem initial goal (some g) = .ok ⟨initial, goal, g⟩) := by
  refine ⟨?_, ?_, ?_⟩
  · intro h; simp [mkRouteProblem, h]
  · intro h1 h2; simp [mkRouteProblem, h1, h2]
  · intro h1 h2; simp [mkRouteProblem, h1, h2]

theorem claim_C3_problem_validation_witness :
    mkRouteProblem "A" "B" (some gW) = .ok ⟨"A", "B", gW⟩ :=
  (claim_C3_problem_validation "A" "B" gW).2.2 (by decide) (by decide)

/-- Claim C10: the step-cost function is total — it returns the
accumulated cost plus the direct edge weight when the edge exists, and
`⊤` (the model of `float('inf')`) when it does not. -/
theorem claim_C10_path_cost_total (p : RouteOptimizationProblem)
    (c : WithTop ℚ) (cur act nxt : String) :
    (p.graph.get_distance cur nxt = none → p.path_cost c cur act nxt = ⊤) ∧
    ∀ d : ℚ, p.graph.get_distance cur nxt = some d →
      p.path_cost c cur act nxt = c + (d : WithTop ℚ) := by
  constructor
  · intro h; simp [RouteOptimizationProblem.path_cost, h]
  · intro d h; simp [RouteOptimizationProblem.path_cost, h]

theorem claim_C10_path_cost_total_witness :
    RouteOptimizationProblem.path_cost pW 0 "A" "X" "B" =
      (0 : WithTop ℚ) + ((5 : ℚ) : WithTop ℚ) :=
  (claim_C10_path_cost_total pW 0 "A" "X" "B").2 5 (by decide)

theorem extractMin_length {f : SNode → ℚ} :
    ∀ {l n rest}, extractMin f l = some (n, rest) → l.length = rest.length + 1 := by
  intro l
  induction l with
  | nil => intro n rest h; simp [extractMin] at h
  | cons x xs ih =>
    intro n rest h
    cases hm : extractMin f xs with
    | none =>
      simp only [extractMin, hm] at h
      obtain ⟨rfl, rfl⟩ := by simpa using h
      rfl
    | some p =>
      obtain ⟨m, r⟩ := p
      by_cases hle : f x ≤ f m
      · simp only [extractMin, hm, if_pos hle] at h
        obtain ⟨rfl, rfl⟩ := by simpa using h
        rfl
      · simp only [extractMin, hm, if_neg hle] at h
        obtain ⟨rfl, rfl⟩ := by simpa using h
        simp [ih hm]

theorem extractMin_mem {f : SNode → ℚ} :
    ∀ {l n rest}, extractMin f l = some (n, rest) → n ∈ l := by
  intro l
  induction l with
  | nil => intro n rest h; simp [extractMin] at h
  | cons x xs ih =>
    intro n rest h
    cases hm : extractMin f xs with
    | none =>
      simp only [extractMin, hm] at h
      obtain ⟨rfl, rfl⟩ := by simpa using h
      exact List.mem_cons_self _ _
    | some p =>
      obtain ⟨m, r⟩ := p
      by_cases hle : f x ≤ f m
      · simp only [extractMin, hm, if_pos hle] at h
        obtain ⟨rfl, rfl⟩ := by simpa using h
        exact List.mem_cons_self _ _
      · simp only [extractMin, hm, if_neg hle] at h
        obtain ⟨rfl, rfl⟩ := by simpa using h
        exact List.mem_cons_of_mem _ (ih hm)

theorem extractMin_subset {f : SNode → ℚ} :
    ∀ {l n rest}, extractMin f l = some (n, rest) → ∀ x ∈ rest, x ∈ l := by
  intro l
  induction l with
  | nil => intro n rest h; simp [extractMin] at h
  | cons x xs ih =>
    intro n rest h
    cases hm : extractMin f xs with
    | none =>
      simp only [extractMin, hm] at h
      obtain ⟨rfl, rfl⟩ := by simpa using h
      exact fun y hy => List.mem_cons_of_mem _ hy
    | some p =>
      obtain ⟨m, r⟩ := p
      by_cases hle : f x ≤ f m
      · simp only [extractMin, hm, if_pos hle] at h
        obtain ⟨rfl, rfl⟩ := by simpa using h
        exact fun y hy => List.mem_cons_of_mem _ hy
      · simp only [extractMin, hm, if_neg hle] at h
        obtain ⟨rfl, rfl⟩ := by simpa using h
        intro y hy
        rcases List.mem_cons.mp hy with hy | hy
        · subst hy; exact List.mem_cons_self _ _
        · exact List.mem_cons_of_mem _ (ih hm y hy)

theorem popLast_length :
    ∀ {l : List SNode} {n rest}, popLast l = some (n, rest) → l.length = rest.length + 1 := by
  intro l
  induction l with
  | nil => intro n rest h; simp [popLast] at h
  | cons x xs ih =>
    intro n rest h
    cases hm : popLast xs with
    | none =>
      simp only [popLast, hm] at h
      obtain ⟨rfl, rfl⟩ := by simpa using h
      cases xs with
      | nil => rfl
      | cons y ys =>
        exfalso
        cases hm2 : popLast ys <;> simp [popLast, hm2] at hm
    | some p =>
      obtain ⟨m, r⟩ := p
      simp only [popLast, hm] at h
      obtain ⟨rfl, rfl⟩ := by simpa using h
      simp [ih hm]

theorem popLast_mem :
    ∀ {l : List SNode} {n rest}, popLast l = some (n, rest) → n ∈ l := by
  intro l
  induction l with
  | nil => intro n rest h; simp [popLast] at h
  | cons x xs ih =>
    intro n rest h
    cases hm : popLast xs with
    | none =>
      simp only [popLast, hm] at h
      obtain ⟨rfl, rfl⟩ := by simpa using h
      exact List.mem_cons_self _ _
    | some p =>
      obtain ⟨m, r⟩ := p
      simp only [popLast, hm] at h
      obtain ⟨rfl, rfl⟩ := by simpa using h
      exact List.mem_cons_of_mem _ (ih hm)

theorem popLast_subset :
    ∀ {l : List SNode} {n rest}, popLast l = some (n, rest) → ∀ x ∈ rest, x ∈ l := by
  intro l
  induction l with
  | nil => intro n rest h; simp [popLast] at h
  | cons x xs ih =>
    intro n rest h
    cases hm : popLast xs with
    | none =>
      simp only [popLast, hm] at h
      obtain ⟨rfl, rfl⟩ := by simpa using h
      simp
    | some p =>
      obtain ⟨m, r⟩ := p
      simp only [popLast, hm] at h
      obtain ⟨rfl, rfl⟩ := by simpa using h
      intro y hy
      rcases List.mem_cons.mp hy with hy | hy
      · subst hy; exact List.mem_cons_self _ _
      · exact List.mem_cons_of_mem _ (ih hm y hy)

theorem pick_length {strat : Strategy} {l : List SNode} {n rest}
    (h : strat.pick l = some (n, rest)) : l.length = rest.length + 1 := by
  cases strat with
  | best f => exact extractMin_length h
  | lifo => exact popLast_length h

theorem pick_mem {strat : Strategy} {l : List SNode} {n rest}
    (h : strat.pick l = some (n, rest)) : n ∈ l := by
  cases strat with
  | best f => exact extractMin_mem h
  | lifo => exact popLast_mem h

theorem pick_subset {strat : Strategy} {l : List SNode} {n rest}
    (h : strat.pick l = some (n, rest)) : ∀ x ∈ rest, x ∈ l := by
  cases strat with
  | best f => exact extractMin_subset h
  | lifo => exact popLast_subset h

theorem place_mem {strat : Strategy} {fr : List SNode} {c y : SNode}
    (h : y ∈ strat.place fr c) : y ∈ fr ∨ y = c := by
  cases strat with
  | best f =>
    cases hf : fr.find? (fun x => x.state == c.state) with
    | none =>
      simp only [Strategy.place, addChild, hf] at h
      rcases List.mem_append.mp h with h | h
      · exact Or.inl h
      · simp at h; exact Or.inr h
    | some m =>
      by_cases hlt : f c < f m
      · simp only [Strategy.place, addChild, hf, if_pos hlt] at h
        obtain ⟨x, hx, hxy⟩ := List.mem_map.mp h
        by_cases hs : x.state == c.state
        · rw [if_pos hs] at hxy; exact Or.inr hxy.symm
        · rw [if_neg hs] at hxy; exact Or.inl (hxy ▸ hx)
      · simp only [Strategy.place, addChild, hf, if_neg hlt] at h
        exact Or.inl h
  | lifo =>
    simp only [Strategy.place] at h
    rcases List.mem_append.mp h with h | h
    · exact Or.inl h
    · simp at h; exact Or.inr h

theorem place_length (strat : Strategy) (fr : List SNode) (c : SNode) :
    (strat.place fr c).length ≤ fr.length + 1 := by
  cases strat with
  | best f =>
    cases hf : fr.find? (fun x => x.state == c.state) with
    | none => simp [Strategy.place, addChild, hf]
    | some m =>
      by_cases hlt : f c < f m
      · simp [Strategy.place, addChild, hf, hlt]
      · simp [Strategy.place, addChild, hf, hlt]
  | lifo => simp [Strategy.place]

theorem foldPlace_mem {strat : Strategy} :
    ∀ {cs : List SNode} {fr : List SNode} {y : SNode},
      y ∈ cs.foldl strat.place fr → y ∈ fr ∨ y ∈ cs := by
  intro cs
  induction cs with
  | nil => intro fr y h; exact Or.inl h
  | cons c cs ih =>
    intro fr y h
    rcases ih h with h | h
    · rcases place_mem h with h | h
      · exact Or.inl h
      · exact Or.inr (by simp [h])
    · exact Or.inr (List.mem_cons_of_mem _ h)

theorem foldPlace_length (strat : Strategy) :
    ∀ (cs : List SNode) (fr : List SNode),
      (cs.foldl strat.place fr).length ≤ fr.length + cs.length := by
  intro cs
  induction cs with
  | nil => intro fr; simp
  | cons c cs ih =>
    intro fr
    calc (cs.foldl strat.place (strat.place fr c)).length
        ≤ (strat.place fr c).length + cs.length := ih _
      _ ≤ fr.length + 1 + cs.length := by
          have := place_length strat fr c; omega
      _ = fr.length + (c :: cs).length := by simp; omega

theorem expandChildren_mem {g : CityGraph} {vis : Finset String} {n c : SNode}
    (h : c ∈ expandChildren g vis n) :
    ∃ e, e ∈ g.get_neighbors n.state ∧ c = childNode n e := by
  simp only [expandChildren] at h
  obtain ⟨e, he, rfl⟩ := List.mem_map.mp h
  exact ⟨e, (List.mem_filter.mp he).1, rfl⟩

theorem mem_foldr_max {l : List (String × List (String × ℚ))} {e : String × List (String × ℚ)}
    (he : e ∈ l) : e.2.length ≤ l.foldr (fun e acc => max e.2.length acc) 0 := by
  induction l with
  | nil => simp at he
  | cons hd tl ih =>
    rcases List.mem_cons.mp he with h | h
    · subst h; exact le_max_left _ _
    · exact le_trans (ih h) (le_max_right _ _)

theorem neighbors_length_le_maxDeg (g : CityGraph) (s : String) :
    (g.get_neighbors s).length ≤ maxDeg g := by
  unfold CityGraph.get_neighbors maxDeg
  cases h : alistLookup g.graph s with
  | none => simp
  | some l => simpa using mem_foldr_max (alistLookup_mem h)

theorem expandChildren_length (g : CityGraph) (vis : Finset String) (n : SNode) :
    (expandChildren g vis n).length ≤ maxDeg g := by
  simp only [expandChildren, List.length_map]
  exact le_trans (List.length_filter_le _ _) (neighbors_length_le_maxDeg g n.state)

theorem mem_targets {g : CityGraph} {s b : String} {w : ℚ} {l : List (String × ℚ)}
    (hl : alistLookup g.graph s = some l) (hm : (b, w) ∈ l) : b ∈ targets g := by
  unfold targets
  rw [List.mem_toFinset, List.mem_flatten]
  exact ⟨l.map Prod.fst, List.mem_map_of_mem _ (alistLookup_mem hl),
    List.mem_map_of_mem _ hm⟩

theorem child_state_mem_uSet {g : CityGraph} {vis : Finset String} {n c : SNode}
    {init : String} (h : c ∈ expandChildren g vis n) : c.state ∈ uSet g init := by
  obtain ⟨e, he, rfl⟩ := expandChildren_mem h
  obtain ⟨b, w⟩ := e
  apply Finset.mem_insert_of_mem
  unfold CityGraph.get_neighbors at he
  cases hl : alistLookup g.graph n.state with
  | none => rw [hl] at he; simp at he
  | some l =>
    rw [hl] at he
    exact mem_targets hl he

theorem searchLoop_zero_none {g : CityGraph} {goal : String} {strat : Strategy}
    {frontier visited count} (hp : strat.pick frontier = none) :
    searchLoop g goal strat 0 frontier visited count = some (none, visited, count) := by
  simp [searchLoop, hp]

theorem searchLoop_succ_none {g : CityGraph} {goal : String} {strat : Strategy}
    {fuel frontier visited count} (hp : strat.pick frontier = none) :
    searchLoop g goal strat (fuel + 1) frontier visited count =
      some (none, visited, count) := by
  simp [searchLoop, hp]

theorem searchLoop_succ_goal {g : CityGraph} {goal : String} {strat : Strategy}
    {fuel frontier visited count n rest} (hp : strat.pick frontier = some (n, rest))
    (hg : n.state = goal) :
    searchLoop g goal strat (fuel + 1) frontier visited count =
      some (some n, visited, count) := by
  simp [searchLoop, hp, hg]

theorem searchLoop_succ_skip {g : CityGraph} {goal : String} {strat : Strategy}
    {fuel frontier visited count n rest} (hp : strat.pick frontier = some (n, rest))
    (hg : ¬ n.state = goal) (hv : n.state ∈ visited) :
    searchLoop g goal strat (fuel + 1) frontier visited count =
      searchLoop g goal strat fuel rest visited count := by
  simp [searchLoop, hp, hg, hv]

theorem searchLoop_succ_expand {g : CityGraph} {goal : String} {strat : Strategy}
    {fuel frontier visited count n rest} (hp : strat.pick frontier = some (n, rest))
    (hg : ¬ n.state = goal) (hv : n.state ∉ visited) :
    searchLoop g goal strat (fuel + 1) frontier visited count =
      searchLoop g goal strat fuel
        ((expandChildren g (insert n.state visited) n).foldl strat.place rest)
        (insert n.state visited) (count + 1) := by
  simp [searchLoop, hp, hg, hv]

theorem searchLoop_count {g : CityGraph} {goal : String} {strat : Strategy} :
    ∀ (fuel : Nat) (frontier : List SNode) (visited : Finset String) (count : Nat)
      (res : Option SNode) (vis : Finset String) (cnt : Nat),
      count = visited.card →
      searchLoop g goal strat fuel frontier visited count = some (res, vis, cnt) →
      cnt = vis.card := by
  intro fuel
  induction fuel with
  | zero =>
    intro frontier visited count res vis cnt h0 h
    cases hp : strat.pick frontier with
    | none =>
      rw [searchLoop_zero_none hp] at h
      obtain ⟨rfl, rfl, rfl⟩ := by simpa using h
      exact h0
    | some p => simp [searchLoop, hp] at h
  | succ fuel ih =>
    intro frontier visited count res vis cnt h0 h
    cases hp : strat.pick frontier with
    | none =>
      rw [searchLoop_succ_none hp] at h
      obtain ⟨rfl, rfl, rfl⟩ := by simpa using h
      exact h0
    | some p =>
      obtain ⟨n, rest⟩ := p
      by_cases hg : n.state = goal
      · rw [searchLoop_succ_goal hp hg] at h
        obtain ⟨rfl, rfl, rfl⟩ := by simpa using h
        exact h0
      · by_cases hv : n.state ∈ visited
        · rw [searchLoop_succ_skip hp hg hv] at h
          exact ih rest visited count res vis cnt h0 h
        · rw [searchLoop_succ_expand hp hg hv] at h
          refine ih _ _ _ res vis cnt ?_ h
          rw [Finset.card_insert_of_not_mem hv, h0]

theorem searchLoop_unreachable {g : CityGraph} {init goal : String} (strat : Strategy)
    (hgoal : ¬ Reaches g init goal) :
    ∀ (fuel : Nat) (frontier : List SNode) (visited : Finset String) (count : Nat),
      (∀ x ∈ frontier, Reaches g init x.state) →
      (∀ x ∈ frontier, x.state ∈ uSet g init) →
      frontier.length + (uSet g init \ visited).card * (maxDeg g + 1) ≤ fuel →
      ∃ vis cnt, searchLoop g goal strat fuel frontier visited count =
        some (none, vis, cnt) := by
  intro fuel
  induction fuel with
  | zero =>
    intro frontier visited count hr hU hf
    cases hp : strat.pick frontier with
    | none => exact ⟨visited, count, searchLoop_zero_none hp⟩
    | some p =>
      obtain ⟨n, rest⟩ := p
      have hlen := pick_length hp
      have h1 : frontier.length ≤ 0 := le_trans (Nat.le_add_right _ _) hf
      omega
  | succ fuel ih =>
    intro frontier visited count hr hU hf
    cases hp : strat.pick frontier with
    | none => exact ⟨visited, count, searchLoop_succ_none hp⟩
    | some p =>
      obtain ⟨n, rest⟩ := p
      have hnf : n ∈ frontier := pick_mem hp
      have hlen : frontier.length = rest.length + 1 := pick_length hp
      by_cases hg : n.state = goal
      · exact absurd (hg ▸ hr n hnf) hgoal
      · by_cases hv : n.state ∈ visited
        · obtain ⟨vis, cnt, hres⟩ := ih rest visited count
            (fun x hx => hr x (pick_subset hp x hx))
            (fun x hx => hU x (pick_subset hp x hx))
            (by rw [hlen, Nat.add_right_comm] at hf; exact Nat.le_of_succ_le_succ hf)
          exact ⟨vis, cnt, by rw [searchLoop_succ_skip hp hg hv]; exact hres⟩
        · have hr2 : ∀ x ∈ (expandChildren g (insert n.state visited) n).foldl
              strat.place rest, Reaches g init x.state := by
            intro x hx
            rcases foldPlace_mem hx with hx | hx
            · exact hr x (pick_subset hp x hx)
            · obtain ⟨e, he, rfl⟩ := expandChildren_mem hx
              obtain ⟨b, w⟩ := e
              have hstep : Reaches g init b := Reaches.step (hr n hnf) he
              simpa [childNode, SNode.state] using hstep
          have hU2 : ∀ x ∈ (expandChildren g (insert n.state visited) n).foldl
              strat.place rest, x.state ∈ uSet g init := by
            intro x hx
            rcases foldPlace_mem hx with hx | hx
            · exact hU x (pick_subset hp x hx)
            · exact child_state_mem_uSet hx
          have hmemsd : n.state ∈ uSet g init \ visited :=
            Finset.mem_sdiff.mpr ⟨hU n hnf, hv⟩
          have hcard : (uSet g init \ insert n.state visited).card + 1 =
              (uSet g init \ visited).card := by
            rw [Finset.sdiff_insert]
            exact Finset.card_erase_add_one hmemsd
          have hfuel2 : ((expandChildren g (insert n.state visited) n).foldl
                strat.place rest).length +
              (uSet g init \ insert n.state visited).card * (maxDeg g + 1) ≤ fuel := by
            have hlen2 := foldPlace_length strat
              (expandChildren g (insert n.state visited) n) rest
            have hchl := expandChildren_length g (insert n.state visited) n
            rw [hlen, ← hcard, Nat.succ_mul] at hf
            generalize hP : (uSet g init \ insert n.state visited).card * (maxDeg g + 1) = P at hf ⊢
            omega
          obtain ⟨vis, cnt, hres⟩ := ih _ _ (count + 1) hr2 hU2 hfuel2
          exact ⟨vis, cnt, by rw [searchLoop_succ_expand hp hg hv]; exact hres⟩

theorem searchLoop_some_inv (g : CityGraph) (goal : String) (strat : Strategy)
    (Q : SNode → Prop) (hQc : ∀ (n : SNode) (e : String × ℚ), Q n → Q (childNode n e)) :
    ∀ (fuel : Nat) (frontier : List SNode) (visited : Finset String) (count : Nat)
      (node : SNode) (vis : Finset String) (cnt : Nat),
      (∀ x ∈ frontier, Q x) →
      searchLoop g goal strat fuel frontier visited count = some (some node, vis, cnt) →
      Q node ∧ node.state = goal := by
  intro fuel
  induction fuel with
  | zero =>
    intro frontier visited count node vis cnt hQfr h
    cases hp : strat.pick frontier with
    | none => rw [searchLoop_zero_none hp] at h; simp at h
    | some p => simp [searchLoop, hp] at h
  | succ fuel ih =>
    intro frontier visited count node vis cnt hQfr h
    cases hp : strat.pick frontier with
    | none => rw [searchLoop_succ_none hp] at h; simp at h
    | some p =>
      obtain ⟨n, rest⟩ := p
      by_cases hg : n.state = goal
      · rw [searchLoop_succ_goal hp hg] at h
        obtain ⟨rfl, rfl, rfl⟩ := by simpa using h
        exact ⟨hQfr n (pick_mem hp), hg⟩
      · by_cases hv : n.state ∈ visited
        · rw [searchLoop_succ_skip hp hg hv] at h
          exact ih rest visited count node vis cnt
            (fun x hx => hQfr x (pick_subset hp x hx)) h
        · rw [searchLoop_succ_expand hp hg hv] at h
          refine ih _ _ (count + 1) node vis cnt ?_ h
          intro x hx
          rcases foldPlace_mem hx with hx | hx
          · exact hQfr x (pick_subset hp x hx)
          · obtain ⟨e, he, rfl⟩ := expandChildren_mem hx
            exact hQc n e (hQfr n (pick_mem hp))

theorem lineage_ne_nil (n : SNode) : n.lineage ≠ [] := by
  cases n <;> simp [SNode.lineage]

theorem lineage_head (n : SNode) : n.lineage.head? = some n.state := by
  cases n <;> rfl

theorem lineage_getLast (n : SNode) : n.lineage.getLast? = some n.rootState := by
  induction n with
  | root s a c d => rfl
  | child s p a c d ih =>
    show (s :: p.lineage).getLast? = some p.rootState
    cases hl : p.lineage with
    | nil => exact absurd hl (lineage_ne_nil p)
    | cons y ys =>
      rw [hl] at ih
      rw [List.getLast?_cons_cons]
      exact ih

theorem reaches_empty_adjacency (x : String) (h : Reaches gW4 "A" x) : x = "A" := by
  induction h with
  | refl => rfl
  | step h1 h2 ih => simp [CityGraph.get_neighbors, gW4, alistLookup] at h2

/-- Claim C4: when the goal is unreachable from the start, each of the
four strategy runners reports failure (`success = false`), an empty path,
and the expansion count of its own search run at frontier exhaustion —
the number of states actually expanded (the cardinality of the final
visited set), not zero-suppressed. -/
theorem claim_C4_no_path_failure (m : MathOps) (p : RouteOptimizationProblem) (e : ℚ)
    (h : ¬ Reaches p.graph p.initial p.goal) :
    ((RouteOptimizer.uniform_cost_search p e).success = false ∧
      (RouteOptimizer.uniform_cost_search p e).path = [] ∧
      ∃ vis : Finset String,
        coreSearch p.graph p.initial p.goal (Strategy.best fun n => n.path_cost) =
          some (none, vis, vis.card) ∧
        (RouteOptimizer.uniform_cost_search p e).nodes_expanded = vis.card) ∧
    ((RouteOptimizer.astar_search m p e).success = false ∧
      (RouteOptimizer.astar_search m p e).path = [] ∧
      ∃ vis : Finset String,
        coreSearch p.graph p.initial p.goal
            (Strategy.best fun n =>
              n.path_cost + p.graph.haversine_distance m n.state p.goal) =
          some (none, vis, vis.card) ∧
        (RouteOptimizer.astar_search m p e).nodes_expanded = vis.card) ∧
    ((RouteOptimizer.greedy_best_first_search m p e).success = false ∧
      (RouteOptimizer.greedy_best_first_search m p e).path = [] ∧
      ∃ vis : Finset String,
        coreSearch p.graph p.initial p.goal
            (Strategy.best fun n => p.graph.haversine_distance m n.state p.goal) =
          some (none, vis, vis.card) ∧
        (RouteOptimizer.greedy_best_first_search m p e).nodes_expanded = vis.card) ∧
    ((RouteOptimizer.depth_first_search p e).success = false ∧
      (RouteOptimizer.depth_first_search p e).path = [] ∧
      ∃ vis : Finset String,
        coreSearch p.graph p.initial p.goal Strategy.lifo = some (none, vis, vis.card) ∧
        (RouteOptimizer.depth_first_search p e).nodes_expanded = vis.card) := by
  have key : ∀ (nm : String) (strat : Strategy),
      (runWith nm strat p e).success = false ∧ (runWith nm strat p e).path = [] ∧
      ∃ vis : Finset String,
        coreSearch p.graph p.initial p.goal strat = some (none, vis, vis.card) ∧
        (runWith nm strat p e).nodes_expanded = vis.card := by
    intro nm strat
    obtain ⟨vis, cnt, hres⟩ := searchLoop_unreachable strat h
        (searchFuel p.graph p.initial) [SNode.root p.initial none 0 0] ∅ 0
        (fun x hx => by
          simp only [List.mem_singleton] at hx
          subst hx
          exact Reaches.refl _)
        (fun x hx => by
          simp only [List.mem_singleton] at hx
          subst hx
          exact Finset.mem_insert_self _ _)
        (by simp [searchFuel])
    have hcnt : cnt = vis.card :=
      searchLoop_count (searchFuel p.graph p.initial) [SNode.root p.initial none 0 0]
        ∅ 0 none vis cnt (by simp) hres
    subst hcnt
    have hcore : coreSearch p.graph p.initial p.goal strat = some (none, vis, vis.card) := hres
    refine ⟨?_, ?_, vis, hcore, ?_⟩ <;> simp [runWith, hcore]
  exact ⟨key "UCS" _, key "A*" _, key "Greedy" _, key "DFS" _⟩

theorem claim_C4_no_path_failure_witness :
    (RouteOptimizer.uniform_cost_search pW4 0).success = false :=
  (claim_C4_no_path_failure m0 pW4 0
    (fun hr => absurd (reaches_empty_adjacency "B" hr) (by decide))).1.1

/-- Claim C6: a successful search returns a node whose parent chain,
collected and reversed by `_extract_path`, is exactly the runner's
reported path, an ordered sequence starting at the initial location and
ending at the goal location; extracting a path from an absent node yields
the empty sequence. -/
theorem claim_C6_path_extraction (p : RouteOptimizationProblem) (strat : Strategy)
    (nm : String) (e : ℚ) (node : SNode) (vis : Finset String) (cnt : Nat)
    (h : coreSearch p.graph p.initial p.goal strat = some (some node, vis, cnt)) :
    RouteOptimizer.extract_path none = ([] : List String) ∧
    (runWith nm strat p e).path = RouteOptimizer.extract_path (some node) ∧
    (RouteOptimizer.extract_path (some node)).head? = some p.initial ∧
    (RouteOptimizer.extract_path (some node)).getLast? = some p.goal := by
  have hinv := searchLoop_some_inv p.graph p.goal strat
      (fun x => x.rootState = p.initial) (fun n e hq => hq)
      (searchFuel p.graph p.initial) [SNode.root p.initial none 0 0] ∅ 0 node vis cnt
      (fun x hx => by
        simp only [List.mem_singleton] at hx
        subst hx
        rfl)
      h
  obtain ⟨hroot, hgl⟩ := hinv
  refine ⟨rfl, ?_, ?_, ?_⟩
  · simp [runWith, h]
  · show (node.lineage.reverse).head? = some p.initial
    rw [List.head?_reverse, lineage_getLast, hroot]
  · show (node.lineage.reverse).getLast? = some p.goal
    rw [List.getLast?_reverse, lineage_head, hgl]

theorem claim_C6_path_extraction_witness :
    (RouteOptimizer.extract_path (some nodeB6)).head? = some "A" :=
  (claim_C6_path_extraction pW6 (Strategy.best fun n => n.path_cost) "UCS" 0 nodeB6
    {"A"} 1 rfl).2.2.1

/-- Claim C9: search is deterministic over a frozen store — two calls of
`run_all_algorithms` with the same start, goal and store agree, for every
strategy, on path, total cost, expansion count and success flag (whether
the search succeeds or fails); only the externally measured wall-clock
durations can differ. -/
theorem claim_C9_deterministic_runs (m : MathOps) (ic gc : String) (cg : CityGraph)
    (e1 e2 e3 e4 f1 f2 f3 f4 : ℚ) :
    sameOutcome (RouteOptimizer.run_all_algorithms m ic gc cg e1 e2 e3 e4)
      (RouteOptimizer.run_all_algorithms m ic gc cg f1 f2 f3 f4) := by
  have hstats : ∀ (nm : String) (strat : Strategy) (p : RouteOptimizationProblem) (x y : ℚ),
      sameStats (runWith nm strat p x) (runWith nm strat p y) := by
    intro nm strat p x y
    unfold runWith
    cases hc : coreSearch p.graph p.initial p.goal strat with
    | none => exact ⟨rfl, rfl, rfl, rfl⟩
    | some r =>
      obtain ⟨res, vis, cnt⟩ := r
      cases res with
      | none => exact ⟨rfl, rfl, rfl, rfl⟩
      | some nd => exact ⟨rfl, rfl, rfl, rfl⟩
  unfold RouteOptimizer.run_all_algorithms
  cases hmk : mkRouteProblem ic gc (some cg) with
  | error s => exact rfl
  | ok p =>
    exact ⟨hstats "UCS" _ p e1 f1, hstats "A*" _ p e2 f2,
      hstats "Greedy" _ p e3 f3, hstats "DFS" _ p e4 f4⟩
